import Mathlib

/-!
Shallow embedding of the sourcify verification pipeline
(src/src/server/services/Injector.ts; the legacy copy src/src/injector.ts
shares the same matching logic).

Bytecode strings are modelled as `List Char`.  JavaScript string methods
(`slice`, `parseInt` with radix 16) are modelled with their ECMAScript
semantics: `parseInt` skips leading whitespace, accepts an optional sign and
an optional `0x`/`0X` prefix, reads the longest run of hex digits and returns
NaN (here `none`) when there is none; `String.prototype.slice(0, end)` clamps
a negative `end` to `max(length + end, 0)` and converts NaN to `0`.
-/

namespace Sourcify

/-- ECMAScript StrWhiteSpace characters skipped by `parseInt`. -/
def isJsWhiteSpace (c : Char) : Bool :=
  c == ' ' || c == '\t' || c == '\n' || c == '\r' ||
  c == Char.ofNat 11 || c == Char.ofNat 12 || c == Char.ofNat 160 ||
  c == Char.ofNat 0xfeff || c == Char.ofNat 0x2028 || c == Char.ofNat 0x2029

/-- Radix-16 digits accepted by `parseInt(s, 16)`. -/
def isHexDigitJs (c : Char) : Bool :=
  decide ((48 ≤ c.toNat ∧ c.toNat ≤ 57) ∨ (97 ≤ c.toNat ∧ c.toNat ≤ 102) ∨
    (65 ≤ c.toNat ∧ c.toNat ≤ 70))

/-- Value of a hex digit (`0`-`9`, `a`-`f`, `A`-`F`). -/
def hexVal (c : Char) : Nat :=
  if 48 ≤ c.toNat ∧ c.toNat ≤ 57 then c.toNat - 48
  else if 97 ≤ c.toNat then c.toNat - 87
  else c.toNat - 55

/-- JavaScript `parseInt(l, 16)`; `none` models NaN. -/
def jsParseIntHex (l : List Char) : Option Int :=
  let l1 := l.dropWhile isJsWhiteSpace
  let sign : Int :=
    match l1 with
    | '-' :: _ => -1
    | _ => 1
  let l2 :=
    match l1 with
    | '-' :: r => r
    | '+' :: r => r
    | _ => l1
  let l3 :=
    match l2 with
    | '0' :: 'x' :: r => r
    | '0' :: 'X' :: r => r
    | _ => l2
  let digits := l3.takeWhile isHexDigitJs
  if digits.isEmpty then none
  else some (sign * (digits.foldl (fun a c => a * 16 + (hexVal c : Int)) 0))

/-- The index at which JavaScript `s.slice(0, e)` cuts: NaN (`none`) becomes 0,
a negative end counts back from the end of the string and clamps at 0, and a
positive end clamps at the length. -/
def jsSliceEndIndex (len : Nat) (e : Option Int) : Nat :=
  match e with
  | none => 0
  | some i => if i < 0 then ((len : Int) + i).toNat else min i.toNat len

/-- `trimMetadata` of Injector.ts: reads the last 4 hex characters as the
big-endian byte length of the metadata trailer and slices off
`2 * length + 4` trailing characters, with JavaScript `slice` clamping. -/
def trimMetadata (bytecode : List Char) : List Char :=
  let metadataSize : Option Int :=
    (jsParseIntHex (bytecode.drop (bytecode.length - 4))).map (fun n => n * 2 + 4)
  bytecode.take (jsSliceEndIndex bytecode.length
    (metadataSize.map (fun s => (bytecode.length : Int) - s)))

/-- The two non-null comparison outcomes of `compareBytecodes`
(the source's string values 'perfect' and 'partial'). -/
inductive MatchStatus where
  | perfect
  | partialMatch
deriving DecidableEq

/-- The Match record `{ address, status }` returned by the matcher. -/
structure BytecodeMatch where
  address : Option String
  status : Option MatchStatus
deriving DecidableEq

/-- `compareBytecodes` of Injector.ts: `deployedBytecode` may be null
(`none`, e.g. after a failed chain read); the guard is the JavaScript
truthiness test `deployedBytecode && deployedBytecode.length > 2`. -/
def compareBytecodes (deployedBytecode : Option (List Char))
    (compiledBytecode : List Char) : Option MatchStatus :=
  match deployedBytecode with
  | some d =>
    if 2 < d.length then
      if d = compiledBytecode then some MatchStatus.perfect
      else if trimMetadata d = trimMetadata compiledBytecode then
        some MatchStatus.partialMatch
      else none
    else none
  | none => none

theorem trimMetadata_eq_take (l : List Char) : ∃ k, trimMetadata l = l.take k :=
  ⟨_, rfl⟩

/-- C2 (amended): trimMetadata is a total function whose result is always a
prefix of its input, hence never longer than the input, even when the
declared trailer length exceeds the string's own length. -/
theorem c2_trimTrailer_never_underflows (bytecode : List Char) :
    (trimMetadata bytecode).length ≤ bytecode.length ∧
    ∃ rest, trimMetadata bytecode ++ rest = bytecode := by
  obtain ⟨k, hk⟩ := trimMetadata_eq_take bytecode
  rw [hk]
  exact ⟨by rw [List.length_take]; exact min_le_right _ _,
    ⟨bytecode.drop k, List.take_append_drop k bytecode⟩⟩

/-- C2 counterexample: both strings declare a trailer longer than themselves
(43690 bytes for "aaaaaa"), yet compareBytecodes returns partial for the
pair, not none: the underflowing slices clamp to the empty string on both
sides and compare equal. -/
theorem c2_underflow_pair_not_none :
    jsParseIntHex ("aaaaaa".data.drop 2) = some 43690 ∧
    "aaaaaa".data.length < 2 * 43690 + 4 ∧
    compareBytecodes (some "aaaaaa".data) "bbbb".data =
      some MatchStatus.partialMatch := by
  decide

/-- C1 (amended): compareBytecodes returns none for a null deployed bytecode
and for any deployed bytecode of at most 2 characters (which covers the
empty string and the '0x' sentinel); for a deployed bytecode longer than 2
characters it returns perfect exactly on equality, partial exactly when the
strings differ but their trimmed forms agree, and none otherwise. -/
theorem c1_compareBytecodes_characterization (d c : List Char) :
    compareBytecodes none c = none ∧
    (d.length ≤ 2 → compareBytecodes (some d) c = none) ∧
    (2 < d.length → d = c → compareBytecodes (some d) c = some MatchStatus.perfect) ∧
    (compareBytecodes (some d) c = some MatchStatus.partialMatch ↔
      2 < d.length ∧ d ≠ c ∧ trimMetadata d = trimMetadata c) ∧
    (compareBytecodes (some d) c = none ↔
      d.length ≤ 2 ∨ (d ≠ c ∧ trimMetadata d ≠ trimMetadata c)) := by
  have hmain : compareBytecodes (some d) c =
      if 2 < d.length then
        if d = c then some MatchStatus.perfect
        else if trimMetadata d = trimMetadata c then some MatchStatus.partialMatch
        else none
      else none := rfl
  rw [hmain]
  split_ifs with h1 h2 h3 <;> simp_all <;> rfl

/-- C1 counterexample: "ab" is a non-empty hex string different from the
empty-code sentinel "0x", yet compareBytecodes("ab", "ab") is none, not
perfect: the source guards on length > 2, not on emptiness. -/
theorem c1_short_string_not_perfect :
    "ab".data ≠ [] ∧ "ab".data ≠ "0x".data ∧
    compareBytecodes (some "ab".data) "ab".data = none := by
  decide

/-- `matchBytecodeToAddress` of Injector.ts.  `checksum` models
`Web3.utils.toChecksumAddress`; `getCode` models the per-address chain read
(`getBytecode`), with `none` standing for a read that threw (the exception is
caught and `deployedBytecode` stays null).  The second component is the list
of checksummed addresses for which a chain read was attempted, in order. -/
def matchBytecodeToAddress (checksum : String → String)
    (getCode : String → Option (List Char)) (addresses : List String)
    (compiledBytecode : List Char) : BytecodeMatch × List String :=
  match addresses with
  | [] => (⟨none, none⟩, [])
  | a :: rest =>
    let a1 := checksum a
    match compareBytecodes (getCode a1) compiledBytecode with
    | some st => (⟨some a1, some st⟩, [a1])
    | none =>
      let next := matchBytecodeToAddress checksum getCode rest compiledBytecode
      (next.1, a1 :: next.2)

theorem matchBytecodeToAddress_nil (checksum : String → String)
    (getCode : String → Option (List Char)) (compiled : List Char) :
    matchBytecodeToAddress checksum getCode [] compiled = (⟨none, none⟩, []) := rfl

theorem matchBytecodeToAddress_cons_hit (checksum : String → String)
    (getCode : String → Option (List Char)) (a : String) (rest : List String)
    (compiled : List Char) (st : MatchStatus)
    (h : compareBytecodes (getCode (checksum a)) compiled = some st) :
    matchBytecodeToAddress checksum getCode (a :: rest) compiled =
      (⟨some (checksum a), some st⟩, [checksum a]) := by
  simp [matchBytecodeToAddress, h]

theorem matchBytecodeToAddress_cons_miss (checksum : String → String)
    (getCode : String → Option (List Char)) (a : String) (rest : List String)
    (compiled : List Char)
    (h : compareBytecodes (getCode (checksum a)) compiled = none) :
    matchBytecodeToAddress checksum getCode (a :: rest) compiled =
      ((matchBytecodeToAddress checksum getCode rest compiled).1,
       checksum a :: (matchBytecodeToAddress checksum getCode rest compiled).2) := by
  simp [matchBytecodeToAddress, h]

theorem matchBytecodeToAddress_all_none (checksum : String → String)
    (getCode : String → Option (List Char)) (addrs : List String)
    (compiled : List Char)
    (h : ∀ a ∈ addrs, compareBytecodes (getCode (checksum a)) compiled = none) :
    matchBytecodeToAddress checksum getCode addrs compiled =
      (⟨none, none⟩, addrs.map checksum) := by
  induction addrs with
  | nil => rfl
  | cons a rest ih =>
    rw [matchBytecodeToAddress_cons_miss checksum getCode a rest compiled
      (h a (by simp)), ih (fun b hb => h b (by simp [hb]))]
    simp

/-- C3: the address scan visits candidates strictly in input order; either no
candidate compares non-none, and the result is the null match with a chain
read attempted for every candidate, or there is a first candidate whose
comparison is non-none, its status is returned as-is, and chain reads were
attempted exactly for the candidates up to and including that one. -/
theorem c3_matchAddress_first_match_wins (checksum : String → String)
    (getCode : String → Option (List Char)) (addrs : List String)
    (compiled : List Char) :
    ((matchBytecodeToAddress checksum getCode addrs compiled).1 = ⟨none, none⟩ ∧
     (∀ (i : Nat) (a : String), addrs[i]? = some a →
        compareBytecodes (getCode (checksum a)) compiled = none) ∧
     (matchBytecodeToAddress checksum getCode addrs compiled).2 =
       addrs.map checksum) ∨
    (∃ (i : Nat) (a : String) (st : MatchStatus), addrs[i]? = some a ∧
       compareBytecodes (getCode (checksum a)) compiled = some st ∧
       (∀ (j : Nat) (b : String), j < i → addrs[j]? = some b →
          compareBytecodes (getCode (checksum b)) compiled = none) ∧
       (matchBytecodeToAddress checksum getCode addrs compiled).1 =
         ⟨some (checksum a), some st⟩ ∧
       (matchBytecodeToAddress checksum getCode addrs compiled).2 =
         (addrs.take (i + 1)).map checksum) := by
  induction addrs with
  | nil =>
    left
    refine ⟨rfl, ?_, rfl⟩
    intro i a ha
    simp at ha
  | cons a rest ih =>
    cases hc : compareBytecodes (getCode (checksum a)) compiled with
    | some st =>
      right
      refine ⟨0, a, st, by simp, hc, ?_, ?_, ?_⟩
      · intro j b hj
        omega
      · rw [matchBytecodeToAddress_cons_hit checksum getCode a rest compiled st hc]
      · rw [matchBytecodeToAddress_cons_hit checksum getCode a rest compiled st hc]
        simp
    | none =>
      rw [matchBytecodeToAddress_cons_miss checksum getCode a rest compiled hc]
      rcases ih with ⟨hm, hall, hreads⟩ | ⟨i, b, st, hget, hcmp, hbefore, hm, hreads⟩
      · left
        refine ⟨hm, ?_, by simp [hreads]⟩
        intro i x hx
        match i, hx with
        | 0, hx => exact (by simpa using hx) ▸ hc
        | i + 1, hx => exact hall i x (by simpa using hx)
      · right
        refine ⟨i + 1, b, st, by simpa using hget, hcmp, ?_, hm, by simp [hreads]⟩
        intro j y hj hy
        match j, hy with
        | 0, hy => exact (by simpa using hy) ▸ hc
        | j + 1, hy => exact hbefore j y (by omega) (by simpa using hy)

/-- First sanitization step of the store methods: the global replacement with
flags gim maps every character outside the case-insensitive class of letters,
digits, underscore, dot, slash and dash to an underscore. -/
def sanitizeChar (c : Char) : Char :=
  if (97 ≤ c.toNat ∧ c.toNat ≤ 122) ∨ (65 ≤ c.toNat ∧ c.toNat ≤ 90) ∨
     (48 ≤ c.toNat ∧ c.toNat ≤ 57) ∨ c = '_' ∨ c = '.' ∨ c = '/' ∨ c = '-' then c
  else '_'

/-- Length of the leading run of '.' characters. -/
def countLeadingDots : List Char → Nat
  | '.' :: rest => countLeadingDots rest + 1
  | _ => 0

/-- One attempt of the regex `(^|\/)[.]+($|\/)` at a position whose leading
boundary (string start, or a '/' already consumed by the caller) holds: a
non-empty run of dots must follow, ended by the string end or by a '/' that
the match also consumes.  Returns the remainder after the matched text. -/
def matchDotsAtBoundary (l : List Char) : Option (List Char) :=
  let k := countLeadingDots l
  if k = 0 then none
  else
    match l.drop k with
    | [] => some []
    | '/' :: rest => some rest
    | _ => none

/-- Scan for the leftmost match of `(^|\/)[.]+($|\/)` at positions past the
string start, where the boundary can only be a '/'; the whole matched text
(including the consumed slashes) is replaced by a single '_'. -/
def replaceFirstDotRunAfterSlash : List Char → List Char
  | [] => []
  | '/' :: rest =>
    match matchDotsAtBoundary rest with
    | some rem => '_' :: rem
    | none => '/' :: replaceFirstDotRunAfterSlash rest
  | c :: rest => c :: replaceFirstDotRunAfterSlash rest

/-- Second sanitization step: `.replace(/(^|\/)[.]+($|\/)/, '_')`.  The regex
has no `g` flag, so only the leftmost match is replaced; the `^` alternative
is tried first at position 0. -/
def replaceFirstDotSegment (l : List Char) : List Char :=
  match matchDotsAtBoundary l with
  | some rem => '_' :: rem
  | none => replaceFirstDotRunAfterSlash l

/-- The sanitized path under which `storePerfectMatchData` and
`storePartialMatchData` write each source file. -/
def sanitizeSourcePath (l : List Char) : List Char :=
  replaceFirstDotSegment (l.map sanitizeChar)

/-- C6: evaluation of the sanitizer at concrete traversal inputs.  The second
replace of the source lacks the `g` flag, so only the leftmost all-dot
segment is collapsed: "../../x" sanitizes to "_../x", which still contains a
".." traversal segment, and "./." sanitizes to "_.", which still contains a
"." segment. -/
theorem c6_sanitizer_keeps_later_dot_segments :
    sanitizeSourcePath "../../x".data = "_../x".data ∧
    sanitizeSourcePath "./.".data = "_.".data ∧
    sanitizeSourcePath "a b.sol".data = "a_b.sol".data := by
  decide

/-- One entry of `metadata.sources`: optional inline content and the declared
keccak256 digest. -/
structure SourceInfo where
  content : Option String
  keccak256 : String
deriving DecidableEq

/-- Errors raised by `rearrangeSources`. -/
inductive AssembleError where
  | hashMismatch (fileName : String)
  | sourceNotFound (fileName hash : String)
deriving DecidableEq

/-- The message of each `rearrangeSources` error, as thrown by the source. -/
def AssembleError.message : AssembleError → String
  | .hashMismatch fileName => "Invalid content for file " ++ fileName
  | .sourceNotFound fileName hash =>
      "The metadata file mentions a source file called \"" ++ fileName ++
      "\" that cannot be found in your upload.\nIts keccak256 hash is " ++ hash ++
      ". Please try to find it and include it in the upload."

/-- `storeByHash` of Injector.ts: the object mapping the keccak hash of each
uploaded file to its content, built in upload order (a later file with the
same hash overwrites an earlier one). -/
def storeByHash (keccak : String → String) (files : List String) :
    List (String × String) :=
  files.map fun f => (keccak f, f)

/-- Lookup in a JavaScript object built by successive assignments: the value
of the last assignment to the key, or `none`. -/
def lastAssoc (m : List (String × String)) (k : String) : Option String :=
  ((m.filter fun p => p.1 == k).map Prod.snd).getLast?

/-- The body of the `rearrangeSources` loop.  JavaScript truthiness makes an
empty inline content string fall through to the hash lookup, and a
looked-up empty string fail the `if (!content)` check. -/
def rearrangeGo (keccak : String → String) (files : List String) :
    List (String × SourceInfo) → Except AssembleError (List (String × String))
  | [] => .ok []
  | (fileName, info) :: rest =>
    let inline := info.content.getD ""
    if inline ≠ "" then
      if keccak inline ≠ info.keccak256 then .error (.hashMismatch fileName)
      else (rearrangeGo keccak files rest).map (fun s => (fileName, inline) :: s)
    else
      match lastAssoc (storeByHash keccak files) info.keccak256 with
      | some c =>
        if c = "" then .error (.sourceNotFound fileName info.keccak256)
        else (rearrangeGo keccak files rest).map (fun s => (fileName, c) :: s)
      | none => .error (.sourceNotFound fileName info.keccak256)

/-- `rearrangeSources` of Injector.ts: validates metadata content keccak
hashes for all declared files and returns the mapping of file contents by
file name, or throws at the first offending declared file. -/
def rearrangeSources (keccak : String → String)
    (metadataSources : List (String × SourceInfo)) (files : List String) :
    Except AssembleError (List (String × String)) :=
  rearrangeGo keccak files metadataSources

/-- The content one declared entry resolves to (inline if truthy and
digest-checked, otherwise the digest index), or `none` if the entry makes
`rearrangeSources` throw. -/
def entryResolved (keccak : String → String) (files : List String)
    (e : String × SourceInfo) : Option String :=
  let inline := e.2.content.getD ""
  if inline ≠ "" then
    if keccak inline = e.2.keccak256 then some inline else none
  else
    match lastAssoc (storeByHash keccak files) e.2.keccak256 with
    | some c => if c = "" then none else some c
    | none => none

/-- The error an unresolvable declared entry makes `rearrangeSources` throw. -/
def entryError (keccak : String → String) (e : String × SourceInfo) :
    AssembleError :=
  let inline := e.2.content.getD ""
  if inline ≠ "" ∧ keccak inline ≠ e.2.keccak256 then .hashMismatch e.1
  else .sourceNotFound e.1 e.2.keccak256

theorem rearrangeGo_cons (keccak : String → String) (files : List String)
    (e : String × SourceInfo) (rest : List (String × SourceInfo)) :
    rearrangeGo keccak files (e :: rest) =
      match entryResolved keccak files e with
      | some c => (rearrangeGo keccak files rest).map (fun s => (e.1, c) :: s)
      | none => .error (entryError keccak e) := by
  obtain ⟨fileName, info⟩ := e
  show rearrangeGo keccak files ((fileName, info) :: rest) = _
  rw [rearrangeGo, entryResolved, entryError]
  by_cases h1 : info.content.getD "" ≠ ""
  · by_cases h2 : keccak (info.content.getD "") = info.keccak256 <;>
      simp [h1, h2]
  · simp only [if_neg h1]
    push_neg at h1
    cases h3 : lastAssoc (storeByHash keccak files) info.keccak256 with
    | none => simp [h1, h3]
    | some c => by_cases h4 : c = "" <;> simp [h1, h3, h4]

theorem lastAssoc_storeByHash (keccak : String → String) (files : List String)
    (h : String) (c : String)
    (hc : lastAssoc (storeByHash keccak files) h = some c) :
    keccak c = h ∧ c ∈ files := by
  unfold lastAssoc at hc
  have hmemLast :
      c ∈ ((storeByHash keccak files).filter fun p => p.1 == h).map Prod.snd := by
    obtain ⟨hne, heq⟩ := List.mem_getLast?_eq_getLast (Option.mem_def.mpr hc)
    exact heq ▸ List.getLast_mem hne
  obtain ⟨p, hpfilter, hps⟩ := List.mem_map.mp hmemLast
  obtain ⟨f, hf, hfe⟩ := List.mem_map.mp (List.mem_filter.mp hpfilter).1
  have hkey := (List.mem_filter.mp hpfilter).2
  subst hfe
  simp only [beq_iff_eq] at hkey
  simp only at hps
  subst hps
  exact ⟨hkey, hf⟩

theorem entryResolved_keccak (keccak : String → String) (files : List String)
    (e : String × SourceInfo) (c : String)
    (hc : entryResolved keccak files e = some c) :
    keccak c = e.2.keccak256 := by
  unfold entryResolved at hc
  by_cases h1 : e.2.content.getD "" ≠ ""
  · by_cases h2 : keccak (e.2.content.getD "") = e.2.keccak256
    · simp [h1, h2] at hc
      subst hc
      exact h2
    · simp [h1, h2] at hc
  · cases h3 : lastAssoc (storeByHash keccak files) e.2.keccak256 with
    | none => simp [h1, h3] at hc
    | some c2 =>
      by_cases h4 : c2 = ""
      · simp [h1, h3, h4] at hc
      · simp [h1, h3, h4] at hc
        subst hc
        exact (lastAssoc_storeByHash keccak files _ _ h3).1

theorem rearrangeGo_ok_of_resolved (keccak : String → String) (files : List String)
    (decl : List (String × SourceInfo))
    (h : ∀ e ∈ decl, (entryResolved keccak files e).isSome = true) :
    rearrangeGo keccak files decl =
      .ok (decl.map fun e => (e.1, (entryResolved keccak files e).getD "")) := by
  induction decl with
  | nil => rfl
  | cons e rest ih =>
    rcases hres : entryResolved keccak files e with _ | c
    · exact absurd (hres ▸ h e (by simp)) (by simp)
    · rw [rearrangeGo_cons, hres, ih (fun x hx => h x (by simp [hx]))]
      simp [hres, Except.map]

theorem rearrangeGo_error_of_first (keccak : String → String) (files : List String)
    (pre post : List (String × SourceInfo)) (e : String × SourceInfo)
    (hpre : ∀ x ∈ pre, (entryResolved keccak files x).isSome = true)
    (he : entryResolved keccak files e = none) :
    rearrangeGo keccak files (pre ++ e :: post) = .error (entryError keccak e) := by
  induction pre with
  | nil =>
    rw [List.nil_append, rearrangeGo_cons, he]
  | cons p pre' ih =>
    rcases hres : entryResolved keccak files p with _ | c
    · exact absurd (hres ▸ hpre p (by simp)) (by simp)
    · rw [List.cons_append, rearrangeGo_cons, hres,
        ih (fun x hx => hpre x (by simp [hx]))]
      rfl

theorem lastAssoc_storeByHash_append (keccak : String → String)
    (files : List String) (f h : String) (hne : keccak f ≠ h) :
    lastAssoc (storeByHash keccak (files ++ [f])) h =
      lastAssoc (storeByHash keccak files) h := by
  unfold lastAssoc storeByHash
  rw [List.map_append, List.filter_append]
  have hnil : List.filter (fun p => p.1 == h)
      (List.map (fun f => (keccak f, f)) [f]) = [] := by
    simp [hne]
  rw [hnil, List.append_nil]

theorem entryResolved_append (keccak : String → String) (files : List String)
    (f : String) (e : String × SourceInfo) (hne : keccak f ≠ e.2.keccak256) :
    entryResolved keccak (files ++ [f]) e = entryResolved keccak files e := by
  unfold entryResolved
  rw [lastAssoc_storeByHash_append keccak files f _ hne]

theorem rearrangeGo_append_file (keccak : String → String) (files : List String)
    (f : String) (decl : List (String × SourceInfo))
    (hne : ∀ e ∈ decl, keccak f ≠ e.2.keccak256) :
    rearrangeGo keccak (files ++ [f]) decl = rearrangeGo keccak files decl := by
  induction decl with
  | nil => rfl
  | cons e rest ih =>
    rw [rearrangeGo_cons, rearrangeGo_cons,
      entryResolved_append keccak files f e (hne e (by simp)),
      ih (fun x hx => hne x (by simp [hx]))]

/-- C5 (amended): rearrangeSources walks the declared sources in order.  When
every declared entry resolves (non-empty inline content with matching digest,
or non-empty uploaded content found under the declared digest), it returns
exactly the declared filenames, each bound to content whose digest equals the
declared digest; extra uploaded files matching no declared digest never
change the result.  Otherwise it throws, for the first unresolvable entry in
declaration order, SourceHashMismatch ('Invalid content for file ...') when
that entry has non-empty inline content with a mismatched digest, and
SourceNotFound (naming the filename and its expected digest) when that
entry's content is found neither inline nor in the upload. -/
theorem c5_assemble_first_error_wins (keccak : String → String)
    (metadataSources : List (String × SourceInfo)) (files : List String) :
    ((∀ e ∈ metadataSources, (entryResolved keccak files e).isSome = true) →
      rearrangeSources keccak metadataSources files =
        .ok (metadataSources.map fun e =>
          (e.1, (entryResolved keccak files e).getD ""))) ∧
    (∀ e ∈ metadataSources, ∀ c, entryResolved keccak files e = some c →
      keccak c = e.2.keccak256) ∧
    (∀ pre e post, metadataSources = pre ++ e :: post →
      (∀ x ∈ pre, (entryResolved keccak files x).isSome = true) →
      entryResolved keccak files e = none →
      rearrangeSources keccak metadataSources files =
        .error (entryError keccak e)) ∧
    (∀ f, (∀ e ∈ metadataSources, keccak f ≠ e.2.keccak256) →
      rearrangeSources keccak metadataSources (files ++ [f]) =
        rearrangeSources keccak metadataSources files) ∧
    (∀ fileName, (AssembleError.hashMismatch fileName).message =
      "Invalid content for file " ++ fileName) := by
  refine ⟨rearrangeGo_ok_of_resolved keccak files metadataSources, ?_, ?_, ?_,
    fun _ => rfl⟩
  · intro e _ c hc
    exact entryResolved_keccak keccak files e c hc
  · intro pre e post hdecl hpre he
    rw [rearrangeSources, hdecl]
    exact rearrangeGo_error_of_first keccak files pre post e hpre he
  · intro f hf
    exact rearrangeGo_append_file keccak files f metadataSources hf

/-- Toy injective digest standing in for keccak-256 when the abstract digest
parameter is instantiated at concrete inputs. -/
def toyKeccak (s : String) : String := "k" ++ s

/-- C5 counterexample: the second declared entry has inline content "X" whose
digest does not match its declared digest "h2", so by the claim a
SourceHashMismatch must be raised; but the first declared entry is
unrecoverable and the source throws at the first offender, so the call
raises SourceNotFound instead. -/
theorem c5_mismatch_exists_but_not_found_raised :
    toyKeccak "X" ≠ "h2" ∧
    rearrangeSources toyKeccak
      [("a.sol", ⟨none, "h1"⟩), ("b.sol", ⟨some "X", "h2"⟩)] [] =
      .error (.sourceNotFound "a.sol" "h1") :=
  ⟨by decide, rfl⟩

/-- C5 witness: a single declared source with matching inline digest
assembles to exactly that mapping. -/
theorem c5_assemble_witness :
    rearrangeSources toyKeccak [("a.sol", ⟨some "S", "kS"⟩)] [] =
      .ok [("a.sol", "S")] := by
  have h := (c5_assemble_first_error_wins toyKeccak
    [("a.sol", ⟨some "S", "kS"⟩)] []).1 (by decide)
  exact h.trans rfl

/-- Decoded CBOR trailer of the compiled deployed bytecode, restricted to the
three keys the store step consults.  `cborDecode` itself lives in the
services/core package outside src/, so it is kept abstract; a byte array
value is truthy in JavaScript whenever the key is present. -/
structure CborData where
  bzzr0 : Option (List Nat)
  bzzr1 : Option (List Nat)
  ipfs : Option (List Nat)
deriving DecidableEq

/-- Lowercase hex digit of a value below 16. -/
def hexDigitChar (n : Nat) : Char :=
  if n < 10 then Char.ofNat (48 + n) else Char.ofNat (87 + n)

/-- `Web3.utils.bytesToHex(bytes).slice(2)`: two lowercase hex characters per
byte, without the 0x prefix. -/
def bytesToHexNo0x (b : List Nat) : String :=
  String.mk (b.foldr
    (fun n acc => hexDigitChar (n / 16 % 16) :: hexDigitChar (n % 16) :: acc) [])

/-- The metadata content path selected by `storePerfectMatchData`: the decoded
trailer keys are consulted in the order bzzr0, bzzr1, ipfs; `b58` models
`multihashes.toB58String` (an external library).  `none` models the
'could not find reference to metadata file in cbor data' error. -/
def locateMetadataPath (b58 : List Nat → String) (c : CborData) : Option String :=
  match c.bzzr0 with
  | some b => some ("/swarm/bzzr0/" ++ bytesToHexNo0x b)
  | none =>
    match c.bzzr1 with
    | some b => some ("/swarm/bzzr1/" ++ bytesToHexNo0x b)
    | none =>
      match c.ipfs with
      | some b => some ("/ipfs/" ++ b58 b)
      | none => none

/-- Output of `recompile` (the external solc invocation). -/
structure RecompilationResult where
  bytecode : List Char
  deployedBytecode : List Char
  metadata : String
deriving DecidableEq

/-- The errors `inject` can throw.  `recompileFailed` stands for the rethrown
compiler error, whose message is the compiler's own. -/
inductive InjectError where
  | missingAddress
  | missingChain
  | recompileFailed
  | noMatch
  | metadataReferenceMissing
deriving DecidableEq

/-- Messages of the injector's own errors.  The source's noMatch message also
interpolates the compilation target and the address list; that diagnostic
payload is not modelled. -/
def InjectError.message : InjectError → String
  | .missingAddress => "Missing address for submitted sources/metadata"
  | .missingChain => "Missing chain name for submitted sources/metadata"
  | .recompileFailed => "recompilation error (rethrown)"
  | .noMatch => "Could not match on-chain deployed bytecode to recompiled bytecode"
  | .metadataReferenceMissing =>
      "Re-compilation successful, but could not find reference to metadata file in cbor data."

/-- A repository write: the arguments handed to `path.join` (one list entry
per argument, kept unjoined), and the content written. -/
def RepositoryWrite : Type := List String × String

/-- `storePerfectMatchData` of Injector.ts: resolves the metadata content
path from the CBOR trailer (throwing when no reference is present), then
writes the canonical metadata at the content path and at the full_match
address path, and every source under the full_match sources path. -/
def storePerfectMatchData (cborDecode : List Char → CborData)
    (b58 : List Nat → String) (repository chain address : String)
    (cr : RecompilationResult) (sources : List (String × String)) :
    Except InjectError (List (List String × String)) :=
  match locateMetadataPath b58 (cborDecode cr.deployedBytecode) with
  | none => .error .metadataReferenceMissing
  | some metadataPath =>
    .ok (([repository, metadataPath], cr.metadata) ::
      ([repository, "contracts", "full_match", chain, address, "/metadata.json"],
        cr.metadata) ::
      sources.map (fun src =>
        ([repository, "contracts", "full_match", chain, address, "sources",
          String.mk (sanitizeSourcePath src.1.data)], src.2)))

/-- `storePartialMatchData` of Injector.ts: writes the metadata and every
source under the partial_match address path only. -/
def storePartialMatchData (repository chain address : String)
    (cr : RecompilationResult) (sources : List (String × String)) :
    List (List String × String) :=
  ([repository, "contracts", "partial_match", chain, address, "/metadata.json"],
    cr.metadata) ::
  sources.map (fun src =>
    ([repository, "contracts", "partial_match", chain, address, "sources",
      String.mk (sanitizeSourcePath src.1.data)], src.2))

/-- One element of `inputData.files` in the server injector: sources already
paired with their metadata descriptor.  Only the source map is consumed by
the modelled steps; the descriptor itself flows into the external compiler. -/
structure SourceUnit where
  solidity : List (String × String)
deriving DecidableEq

/-- `InputData` of the server injector. -/
structure InputData where
  repository : String
  chain : String
  addresses : List (Option String)
  files : List SourceUnit
  bytecode : Option (List Char)

/-- `validateAddresses` of Injector.ts: throws if the array is empty or
contains a null element. -/
def validateAddresses (addresses : List (Option String)) :
    Except InjectError Unit :=
  if addresses.length = 0 then .error .missingAddress
  else if addresses.any fun a => a.isNone then .error .missingAddress
  else .ok ()

/-- `validateChain` of Injector.ts; the falsy check is modelled as the empty
string. -/
def validateChain (chain : String) : Except InjectError Unit :=
  if chain = "" then .error .missingChain else .ok ()

/-- Observable effects of one `inject` call: the checksummed addresses read
from the chain in order, the repository writes in order, the number of
compiler invocations and the number of `compareBytecodes` evaluations. -/
structure InjectLog where
  reads : List String
  writes : List (List String × String)
  compiles : Nat
  compares : Nat
deriving DecidableEq

/-- The `for (const source of files)` loop of `inject`.  `addrs` is the
validated address list; the scan only ever produces a match whose address
and status are both present or both absent, mirroring the JavaScript
truthiness test `match.address && match.status === ...`. -/
def injectLoop (checksum : String → String)
    (getCode : String → Option (List Char)) (cborDecode : List Char → CborData)
    (b58 : List Nat → String)
    (recompile : SourceUnit → Except Unit RecompilationResult)
    (inputData : InputData) (addrs : List String) :
    List SourceUnit → BytecodeMatch → Except InjectError BytecodeMatch × InjectLog
  | [], m => (.ok m, ⟨[], [], 0, 0⟩)
  | su :: rest, _ =>
    match recompile su with
    | .error _ => (.error .recompileFailed, ⟨[], [], 1, 0⟩)
    | .ok cr =>
      let scanned : BytecodeMatch × List String × Nat :=
        match inputData.bytecode with
        | some b =>
          if b.isEmpty then
            let s := matchBytecodeToAddress checksum getCode addrs cr.deployedBytecode
            (s.1, s.2, s.2.length)
          else
            (⟨some (checksum (addrs.headD "")),
              compareBytecodes (some b) cr.deployedBytecode⟩, [], 1)
        | none =>
          let s := matchBytecodeToAddress checksum getCode addrs cr.deployedBytecode
          (s.1, s.2, s.2.length)
      let m := scanned.1
      let reads := scanned.2.1
      let compares := scanned.2.2
      match m.address, m.status with
      | some addr, some MatchStatus.perfect =>
        match storePerfectMatchData cborDecode b58 inputData.repository
            inputData.chain addr cr su.solidity with
        | .error e => (.error e, ⟨reads, [], 1, compares⟩)
        | .ok ws =>
          let next := injectLoop checksum getCode cborDecode b58 recompile
            inputData addrs rest ⟨some addr, some MatchStatus.perfect⟩
          (next.1, ⟨reads ++ next.2.reads, ws ++ next.2.writes,
            1 + next.2.compiles, compares + next.2.compares⟩)
      | some addr, some MatchStatus.partialMatch =>
        let ws := storePartialMatchData inputData.repository inputData.chain
          addr cr su.solidity
        let next := injectLoop checksum getCode cborDecode b58 recompile
          inputData addrs rest ⟨some addr, some MatchStatus.partialMatch⟩
        (next.1, ⟨reads ++ next.2.reads, ws ++ next.2.writes,
          1 + next.2.compiles, compares + next.2.compares⟩)
      | _, _ => (.error .noMatch, ⟨reads, [], 1, compares⟩)

/-- `inject` of the server Injector.ts: validates the addresses and the chain
first, then runs the per-descriptor loop over the validated address list. -/
def inject (checksum : String → String)
    (getCode : String → Option (List Char)) (cborDecode : List Char → CborData)
    (b58 : List Nat → String)
    (recompile : SourceUnit → Except Unit RecompilationResult)
    (inputData : InputData) : Except InjectError BytecodeMatch × InjectLog :=
  match validateAddresses inputData.addresses with
  | .error e => (.error e, ⟨[], [], 0, 0⟩)
  | .ok _ =>
    match validateChain inputData.chain with
    | .error e => (.error e, ⟨[], [], 0, 0⟩)
    | .ok _ =>
      injectLoop checksum getCode cborDecode b58 recompile inputData
        (inputData.addresses.filterMap id) inputData.files ⟨none, none⟩

/-- C7: the metadata-reference decode consults the CBOR trailer keys in the
priority order bzzr0, bzzr1, ipfs and produces /swarm/bzzr0/hex,
/swarm/bzzr1/hex or /ipfs/base58 for the first key present; when none of the
three keys is present, storePerfectMatchData throws the
MetadataReferenceMissing error with the source's message. -/
theorem c7_metadata_reference_priority (b58 : List Nat → String)
    (cborDecode : List Char → CborData) (repository chain address : String)
    (cr : RecompilationResult) (sources : List (String × String)) :
    (∀ c b, c.bzzr0 = some b →
      locateMetadataPath b58 c = some ("/swarm/bzzr0/" ++ bytesToHexNo0x b)) ∧
    (∀ c b, c.bzzr0 = none → c.bzzr1 = some b →
      locateMetadataPath b58 c = some ("/swarm/bzzr1/" ++ bytesToHexNo0x b)) ∧
    (∀ c b, c.bzzr0 = none → c.bzzr1 = none → c.ipfs = some b →
      locateMetadataPath b58 c = some ("/ipfs/" ++ b58 b)) ∧
    (∀ c, c.bzzr0 = none → c.bzzr1 = none → c.ipfs = none →
      locateMetadataPath b58 c = none) ∧
    (cborDecode cr.deployedBytecode = ⟨none, none, none⟩ →
      storePerfectMatchData cborDecode b58 repository chain address cr sources =
        .error .metadataReferenceMissing) ∧
    InjectError.metadataReferenceMissing.message =
      "Re-compilation successful, but could not find reference to metadata file in cbor data." := by
  refine ⟨?_, ?_, ?_, ?_, ?_, rfl⟩
  · intro c b h
    simp [locateMetadataPath, h]
  · intro c b h0 h1
    simp [locateMetadataPath, h0, h1]
  · intro c b h0 h1 h2
    simp [locateMetadataPath, h0, h1, h2]
  · intro c h0 h1 h2
    simp [locateMetadataPath, h0, h1, h2]
  · intro hdec
    simp [storePerfectMatchData, hdec, locateMetadataPath]

/-- C7 witness: concrete trailers for each branch of the priority order. -/
theorem c7_metadata_reference_priority_witness :
    locateMetadataPath (fun _ => "") ⟨some [202, 254], some [0], some [0]⟩ =
      some "/swarm/bzzr0/cafe" ∧
    locateMetadataPath (fun _ => "") ⟨none, some [222, 173], none⟩ =
      some "/swarm/bzzr1/dead" ∧
    locateMetadataPath (fun _ => "QmHash") ⟨none, none, some [1, 2]⟩ =
      some "/ipfs/QmHash" ∧
    locateMetadataPath (fun _ => "") ⟨none, none, none⟩ = none := by
  have h := c7_metadata_reference_priority (fun _ => "")
    (fun _ => ⟨none, none, none⟩) "" "" "" ⟨[], [], ""⟩ []
  have h3 := c7_metadata_reference_priority (fun _ => "QmHash")
    (fun _ => ⟨none, none, none⟩) "" "" "" ⟨[], [], ""⟩ []
  refine ⟨?_, ?_, ?_, ?_⟩
  · exact (h.1 ⟨some [202, 254], some [0], some [0]⟩ [202, 254] rfl).trans rfl
  · exact (h.2.1 ⟨none, some [222, 173], none⟩ [222, 173] rfl rfl).trans rfl
  · exact (h3.2.2.1 ⟨none, none, some [1, 2]⟩ [1, 2] rfl rfl rfl).trans rfl
  · exact h.2.2.2.1 ⟨none, none, none⟩ rfl rfl rfl

/-- C10: an address list containing a null element makes inject throw the
'Missing address for submitted sources/metadata' error during input
validation, before any compilation, chain read or repository write. -/
theorem c10_null_address_rejected_before_any_effect (checksum : String → String)
    (getCode : String → Option (List Char)) (cborDecode : List Char → CborData)
    (b58 : List Nat → String)
    (recompile : SourceUnit → Except Unit RecompilationResult)
    (inputData : InputData) (h : none ∈ inputData.addresses) :
    inject checksum getCode cborDecode b58 recompile inputData =
      (.error .missingAddress, ⟨[], [], 0, 0⟩) ∧
    InjectError.missingAddress.message =
      "Missing address for submitted sources/metadata" := by
  have hlen : inputData.addresses.length ≠ 0 := by
    intro h0
    rw [List.length_eq_zero] at h0
    rw [h0] at h
    simp at h
  have hany : (inputData.addresses.any fun a => a.isNone) = true :=
    List.any_eq_true.mpr ⟨none, h, rfl⟩
  refine ⟨?_, rfl⟩
  simp [inject, validateAddresses, hlen, hany]

/-- C10 witness: a two-element address list whose second entry is null is
rejected with no reads, no writes and no compilation, although the list is
non-empty. -/
theorem c10_null_address_rejected_witness :
    inject id (fun _ => none) (fun _ => ⟨none, none, none⟩) (fun _ => "")
      (fun _ => .error ())
      ⟨"repository", "mainnet", [some "0xA", none], [], none⟩ =
      (.error .missingAddress, ⟨[], [], 0, 0⟩) :=
  (c10_null_address_rejected_before_any_effect id (fun _ => none)
    (fun _ => ⟨none, none, none⟩) (fun _ => "") (fun _ => .error ())
    ⟨"repository", "mainnet", [some "0xA", none], [], none⟩ (by simp)).1

/-- C8: every path written by storePartialMatchData lies under
repository/contracts/partial_match/chain/address (so no content-address and
no full_match path), and a pipeline run whose scan ends in a partial match
performs exactly the storePartialMatchData writes. -/
theorem c8_partial_match_writes_only_partial_paths (checksum : String → String)
    (getCode : String → Option (List Char)) (cborDecode : List Char → CborData)
    (b58 : List Nat → String)
    (recompile : SourceUnit → Except Unit RecompilationResult)
    (inputData : InputData) (f : SourceUnit) (cr cr2 : RecompilationResult)
    (addr : String) (reads : List String)
    (repository chain address : String) (sources : List (String × String)) :
    (∀ p ∈ (storePartialMatchData repository chain address cr2 sources).map
        Prod.fst,
      p.take 5 = [repository, "contracts", "partial_match", chain, address] ∧
      6 ≤ p.length) ∧
    (inputData.files = [f] → inputData.bytecode = none →
      validateAddresses inputData.addresses = .ok () →
      validateChain inputData.chain = .ok () →
      recompile f = .ok cr →
      matchBytecodeToAddress checksum getCode (inputData.addresses.filterMap id)
        cr.deployedBytecode = (⟨some addr, some MatchStatus.partialMatch⟩, reads) →
      inject checksum getCode cborDecode b58 recompile inputData =
        (.ok ⟨some addr, some MatchStatus.partialMatch⟩,
         ⟨reads,
          storePartialMatchData inputData.repository inputData.chain addr cr
            f.solidity,
          1, reads.length⟩)) := by
  constructor
  · intro p hp
    simp only [storePartialMatchData, List.map_cons, List.map_map,
      List.mem_cons, List.mem_map] at hp
    rcases hp with rfl | ⟨src, _, rfl⟩
    · exact ⟨rfl, by simp⟩
    · exact ⟨rfl, by simp⟩
  · intro hfiles hb hva hvc hrec hscan
    simp [inject, hva, hvc, hfiles, injectLoop, hrec, hb, hscan]

/-- C8 witness: a one-address scan returning partial writes exactly the
partial_match paths. -/
theorem c8_partial_match_writes_witness :
    inject (fun a => a) (fun a => if a = "A1" then some "aaaaaa".data else none)
      (fun _ => ⟨none, none, none⟩) (fun _ => "")
      (fun _ => .ok ⟨[], "bbbb".data, "meta"⟩)
      ⟨"repo", "mainnet", [some "A1"], [⟨[("A.sol", "src")]⟩], none⟩ =
      (.ok ⟨some "A1", some MatchStatus.partialMatch⟩,
       ⟨["A1"],
        storePartialMatchData "repo" "mainnet" "A1" ⟨[], "bbbb".data, "meta"⟩
          [("A.sol", "src")],
        1, 1⟩) :=
  (c8_partial_match_writes_only_partial_paths (fun a => a)
    (fun a => if a = "A1" then some "aaaaaa".data else none)
    (fun _ => ⟨none, none, none⟩) (fun _ => "")
    (fun _ => .ok ⟨[], "bbbb".data, "meta"⟩)
    ⟨"repo", "mainnet", [some "A1"], [⟨[("A.sol", "src")]⟩], none⟩
    ⟨[("A.sol", "src")]⟩ ⟨[], "bbbb".data, "meta"⟩ ⟨[], [], ""⟩
    "A1" ["A1"] "" "" "" []).2 rfl rfl rfl rfl rfl (by decide)

/-- C9: with a pre-fetched on-chain bytecode in the input, inject performs no
chain read, evaluates compareBytecodes exactly once (against the pre-fetched
value), and builds the match from that single comparison and the checksummed
first candidate address, for every outcome of the comparison. -/
theorem c9_prefetched_bytecode_skips_scan (checksum : String → String)
    (getCode : String → Option (List Char)) (cborDecode : List Char → CborData)
    (b58 : List Nat → String)
    (recompile : SourceUnit → Except Unit RecompilationResult)
    (inputData : InputData) (f : SourceUnit) (cr : RecompilationResult)
    (a0 : String) (restA : List (Option String)) (b : List Char)
    (hfiles : inputData.files = [f])
    (haddr : inputData.addresses = some a0 :: restA)
    (hva : validateAddresses inputData.addresses = .ok ())
    (hvc : validateChain inputData.chain = .ok ())
    (hb : inputData.bytecode = some b) (hbne : b ≠ [])
    (hrec : recompile f = .ok cr) :
    (compareBytecodes (some b) cr.deployedBytecode = none →
      inject checksum getCode cborDecode b58 recompile inputData =
        (.error .noMatch, ⟨[], [], 1, 1⟩)) ∧
    (compareBytecodes (some b) cr.deployedBytecode = some MatchStatus.partialMatch →
      inject checksum getCode cborDecode b58 recompile inputData =
        (.ok ⟨some (checksum a0), some MatchStatus.partialMatch⟩,
         ⟨[], storePartialMatchData inputData.repository inputData.chain
            (checksum a0) cr f.solidity, 1, 1⟩)) ∧
    (∀ ws, compareBytecodes (some b) cr.deployedBytecode = some MatchStatus.perfect →
      storePerfectMatchData cborDecode b58 inputData.repository inputData.chain
        (checksum a0) cr f.solidity = .ok ws →
      inject checksum getCode cborDecode b58 recompile inputData =
        (.ok ⟨some (checksum a0), some MatchStatus.perfect⟩, ⟨[], ws, 1, 1⟩)) ∧
    (∀ e, compareBytecodes (some b) cr.deployedBytecode = some MatchStatus.perfect →
      storePerfectMatchData cborDecode b58 inputData.repository inputData.chain
        (checksum a0) cr f.solidity = .error e →
      inject checksum getCode cborDecode b58 recompile inputData =
        (.error e, ⟨[], [], 1, 1⟩)) := by
  have hbe : b.isEmpty = false := by
    cases b with
    | nil => exact absurd rfl hbne
    | cons x xs => rfl
  have hhead : (inputData.addresses.filterMap id).headD "" = a0 := by
    rw [haddr]; rfl
  have hhead2 : List.findSome? id inputData.addresses = some a0 := by
    rw [haddr]; rfl
  refine ⟨?_, ?_, ?_, ?_⟩
  · intro hcmp
    simp [inject, hva, hvc, hfiles, injectLoop, hrec, hb, hbe, hhead, hhead2, hcmp]
  · intro hcmp
    simp [inject, hva, hvc, hfiles, injectLoop, hrec, hb, hbe, hhead, hhead2, hcmp]
  · intro ws hcmp hstore
    simp [inject, hva, hvc, hfiles, injectLoop, hrec, hb, hbe, hhead, hhead2, hcmp, hstore]
  · intro e hcmp hstore
    simp [inject, hva, hvc, hfiles, injectLoop, hrec, hb, hbe, hhead, hhead2, hcmp, hstore]

/-- C9 witness: a monitor-supplied bytecode differing from the compiled one
only in the trailer yields a partial match on the first candidate address,
with no chain read and a single comparison. -/
theorem c9_prefetched_bytecode_witness :
    inject (fun a => a) (fun _ => none) (fun _ => ⟨none, none, none⟩)
      (fun _ => "") (fun _ => .ok ⟨[], "bbbb".data, "m"⟩)
      ⟨"repo", "mainnet", [some "A1"], [⟨[("A.sol", "s")]⟩],
        some "aaaaaa".data⟩ =
      (.ok ⟨some "A1", some MatchStatus.partialMatch⟩,
       ⟨[], storePartialMatchData "repo" "mainnet" "A1" ⟨[], "bbbb".data, "m"⟩
          [("A.sol", "s")], 1, 1⟩) :=
  ((c9_prefetched_bytecode_skips_scan (fun a => a) (fun _ => none)
    (fun _ => ⟨none, none, none⟩) (fun _ => "")
    (fun _ => .ok ⟨[], "bbbb".data, "m"⟩)
    ⟨"repo", "mainnet", [some "A1"], [⟨[("A.sol", "s")]⟩], some "aaaaaa".data⟩
    ⟨[("A.sol", "s")]⟩ ⟨[], "bbbb".data, "m"⟩ "A1" [] "aaaaaa".data
    rfl rfl rfl rfl rfl (by decide) rfl).2.1 (by decide))

theorem matchScan_result_none_iff (checksum : String → String)
    (getCode : String → Option (List Char)) (addrs : List String)
    (compiled : List Char) :
    (matchBytecodeToAddress checksum getCode addrs compiled).1 = ⟨none, none⟩ ↔
      ∀ a ∈ addrs, compareBytecodes (getCode (checksum a)) compiled = none := by
  induction addrs with
  | nil => simp [matchBytecodeToAddress]
  | cons a rest ih =>
    cases hc : compareBytecodes (getCode (checksum a)) compiled with
    | some st =>
      rw [matchBytecodeToAddress_cons_hit checksum getCode a rest compiled st hc]
      constructor
      · intro h
        exact absurd h (by simp)
      · intro h
        exact absurd (h a (by simp)) (by simp [hc])
    | none =>
      rw [matchBytecodeToAddress_cons_miss checksum getCode a rest compiled hc]
      constructor
      · intro h x hx
        rcases List.mem_cons.mp hx with rfl | hx2
        · exact hc
        · exact (ih.mp h) x hx2
      · intro h
        exact ih.mpr (fun x hx => h x (by simp [hx]))

theorem matchScan_shape (checksum : String → String)
    (getCode : String → Option (List Char)) (addrs : List String)
    (compiled : List Char) :
    (matchBytecodeToAddress checksum getCode addrs compiled).1 = ⟨none, none⟩ ∨
    ∃ a st, (matchBytecodeToAddress checksum getCode addrs compiled).1 =
      ⟨some a, some st⟩ := by
  induction addrs with
  | nil => left; rfl
  | cons a rest ih =>
    cases hc : compareBytecodes (getCode (checksum a)) compiled with
    | some st =>
      right
      exact ⟨checksum a, st,
        by rw [matchBytecodeToAddress_cons_hit checksum getCode a rest compiled st hc]⟩
    | none =>
      rw [matchBytecodeToAddress_cons_miss checksum getCode a rest compiled hc]
      exact ih

theorem storePerfect_error_is_reference_missing (cborDecode : List Char → CborData)
    (b58 : List Nat → String) (repository chain address : String)
    (cr : RecompilationResult) (sources : List (String × String))
    (e : InjectError)
    (he : storePerfectMatchData cborDecode b58 repository chain address cr
      sources = .error e) :
    e = .metadataReferenceMissing := by
  unfold storePerfectMatchData at he
  cases hl : locateMetadataPath b58 (cborDecode cr.deployedBytecode) with
  | none =>
    rw [hl] at he
    simp at he
    exact he.symm
  | some mp =>
    rw [hl] at he
    simp at he

/-- C4: a failed chain read for one candidate never aborts the scan (the
candidate is skipped and scanning continues with the rest of the list), and
with the scan path active the pipeline raises NoMatch exactly when every
candidate's comparison is none, in particular when the whole candidate list
is exhausted with every read failing. -/
theorem c4_read_failure_skipped_noMatch_on_exhaustion (checksum : String → String)
    (getCode : String → Option (List Char)) (cborDecode : List Char → CborData)
    (b58 : List Nat → String)
    (recompile : SourceUnit → Except Unit RecompilationResult)
    (inputData : InputData) (f : SourceUnit) (cr : RecompilationResult) :
    (∀ a rest compiled, getCode (checksum a) = none →
      matchBytecodeToAddress checksum getCode (a :: rest) compiled =
        ((matchBytecodeToAddress checksum getCode rest compiled).1,
         checksum a :: (matchBytecodeToAddress checksum getCode rest compiled).2)) ∧
    (inputData.files = [f] → inputData.bytecode = none →
      validateAddresses inputData.addresses = .ok () →
      validateChain inputData.chain = .ok () →
      recompile f = .ok cr →
      (((∀ a ∈ inputData.addresses.filterMap id,
          compareBytecodes (getCode (checksum a)) cr.deployedBytecode = none) →
        inject checksum getCode cborDecode b58 recompile inputData =
          (.error .noMatch,
           ⟨(inputData.addresses.filterMap id).map checksum, [], 1,
            ((inputData.addresses.filterMap id).map checksum).length⟩)) ∧
       ((inject checksum getCode cborDecode b58 recompile inputData).1 =
          .error .noMatch →
        ∀ a ∈ inputData.addresses.filterMap id,
          compareBytecodes (getCode (checksum a)) cr.deployedBytecode = none))) := by
  constructor
  · intro a rest compiled hga
    apply matchBytecodeToAddress_cons_miss
    rw [hga]
    rfl
  · intro hfiles hb hva hvc hrec
    constructor
    · intro hall
      have hscan := matchBytecodeToAddress_all_none checksum getCode
        (inputData.addresses.filterMap id) cr.deployedBytecode hall
      simp [inject, hva, hvc, hfiles, injectLoop, hrec, hb, hscan]
    · intro hinj
      rcases matchScan_shape checksum getCode (inputData.addresses.filterMap id)
        cr.deployedBytecode with hnone | ⟨a1, st, hsome⟩
      · exact (matchScan_result_none_iff checksum getCode _ _).mp hnone
      · exfalso
        cases hms : matchBytecodeToAddress checksum getCode
            (inputData.addresses.filterMap id) cr.deployedBytecode with
        | mk m0 rds =>
          rw [hms] at hsome
          simp only at hsome
          subst hsome
          cases st with
          | perfect =>
            cases hsp : storePerfectMatchData cborDecode b58 inputData.repository
                inputData.chain a1 cr f.solidity with
            | ok ws =>
              simp [inject, hva, hvc, hfiles, injectLoop, hrec, hb, hms, hsp] at hinj
            | error e =>
              have he := storePerfect_error_is_reference_missing cborDecode b58
                inputData.repository inputData.chain a1 cr f.solidity e hsp
              subst he
              simp [inject, hva, hvc, hfiles, injectLoop, hrec, hb, hms, hsp] at hinj
          | partialMatch =>
            simp [inject, hva, hvc, hfiles, injectLoop, hrec, hb, hms] at hinj

/-- C4 witness: both reads fail on a two-address list; the scan visits both
candidates and the pipeline ends with NoMatch, and skipping the first failed
candidate continues with the second. -/
theorem c4_read_failure_witness :
    matchBytecodeToAddress (fun a => a) (fun _ => none) ["A1", "A2"] "bbbb".data =
      (⟨none, none⟩, ["A1", "A2"]) ∧
    inject (fun a => a) (fun _ => none) (fun _ => ⟨none, none, none⟩)
      (fun _ => "") (fun _ => .ok ⟨[], "bbbb".data, "m"⟩)
      ⟨"repo", "mainnet", [some "A1", some "A2"], [⟨[("A.sol", "s")]⟩], none⟩ =
      (.error .noMatch, ⟨["A1", "A2"], [], 1, 2⟩) := by
  have h := c4_read_failure_skipped_noMatch_on_exhaustion (fun a => a)
    (fun _ => none) (fun _ => ⟨none, none, none⟩) (fun _ => "")
    (fun _ => .ok ⟨[], "bbbb".data, "m"⟩)
    ⟨"repo", "mainnet", [some "A1", some "A2"], [⟨[("A.sol", "s")]⟩], none⟩
    ⟨[("A.sol", "s")]⟩ ⟨[], "bbbb".data, "m"⟩
  constructor
  · have h1 := h.1 "A1" ["A2"] "bbbb".data rfl
    have h2 := h.1 "A2" [] "bbbb".data rfl
    rw [h1, h2]
    rfl
  · exact ((h.2 rfl rfl rfl rfl rfl).1 (by intro a ha; rfl)).trans rfl

end Sourcify
